import Mathlib

/-!
Shallow embedding of the product-list derivation pipeline of
`src/app/components/CatalogPage.tsx`: the `filteredProducts` memo
(search filter, category filter, stable sort), the reset effect that
re-slices the displayed page whenever the filter inputs change, and the
`loadMoreProducts` callback that appends the next page.

Prices and ratings are modelled as integers (only their ordering matters
to the component); names and categories as strings; the JavaScript
stable `Array.prototype.sort` as a stable list sort.
-/

/-- A catalog product, after `src/app/types/product`. Numeric fields are
modelled as integers since the pipeline only compares them. -/
structure Product where
  id : String
  name : String
  description : String
  category : String
  price : Int
  rating : Int
  reviews : Nat
deriving DecidableEq, Repr

/-- The four values of the `sortBy` state. -/
inductive SortKey where
  | name
  | priceLow
  | priceHigh
  | rating
deriving DecidableEq, Repr

/-- The two values of the `viewMode` state. -/
inductive ViewMode where
  | grid
  | list
deriving DecidableEq, Repr

/-- Character list of a string, lower-cased (the JavaScript
`toLowerCase()` of the search comparisons). -/
def toLowerChars (s : String) : List Char :=
  s.toList.map Char.toLower

/-- Lexicographic "less or equal" on character lists, the model of the
`localeCompare` comparator returning a value `<= 0`. -/
def lexLeChars : List Char → List Char → Bool
  | [], _ => true
  | _ :: _, [] => false
  | c :: cs, d :: ds => decide (c < d) || (decide (c = d) && lexLeChars cs ds)

/-- Lexicographic comparison of product names (`a.name.localeCompare(b.name) <= 0`). -/
def nameLe (a b : String) : Bool :=
  lexLeChars a.toList b.toList

/-- Test that `needle` occurs at the head of `hay` (character-list
version of a string startsWith test). -/
def startsWithChars : List Char → List Char → Bool
  | [], _ => true
  | _ :: _, [] => false
  | c :: cs, d :: ds => c = d && startsWithChars cs ds

/-- Test that `needle` occurs somewhere in `hay` (character-list version
of the JavaScript `String.includes` test). -/
def hasSubChars (needle : List Char) : List Char → Bool
  | [] => needle.isEmpty
  | d :: ds => startsWithChars needle (d :: ds) || hasSubChars needle ds

/-- Case-insensitive containment: `hay.toLowerCase().includes(q.toLowerCase())`. -/
def containsCI (hay q : String) : Bool :=
  hasSubChars (toLowerChars q) (toLowerChars hay)

/-- The search predicate of the `filteredProducts` memo: the query occurs
case-insensitively in the name, the description, or the category. -/
def matchesQuery (q : String) (p : Product) : Bool :=
  containsCI p.name q || containsCI p.description q || containsCI p.category q

/-- The two filter passes of the `filteredProducts` memo.  JavaScript
truthiness: the search pass runs only when the query is a non-empty
string, and the category pass runs only when `currentCategory` is
non-null and non-empty. -/
def filterStage (catalog : List Product) (q : String) (c : Option String) :
    List Product :=
  let f1 := if q = "" then catalog else catalog.filter (matchesQuery q)
  match c with
  | none => f1
  | some cid => if cid = "" then f1 else f1.filter (fun p => p.category = cid)

/-- The comparator of the sort pass, as a boolean "may come first"
relation: `sortLe k a b` holds when the JavaScript comparator for sort
key `k` returns a value `<= 0` on `(a, b)`. -/
def sortLe : SortKey → Product → Product → Bool
  | .name, a, b => nameLe a.name b.name
  | .priceLow, a, b => decide (a.price ≤ b.price)
  | .priceHigh, a, b => decide (b.price ≤ a.price)
  | .rating, a, b => decide (b.rating ≤ a.rating)

/-- The comparator `sortLe` as a decidable relation. -/
def sortRel (k : SortKey) : Product → Product → Prop :=
  fun a b => sortLe k a b = true

instance (k : SortKey) : DecidableRel (sortRel k) :=
  fun a b => instDecidableEqBool (sortLe k a b) true

/-- The sort pass: JavaScript `Array.prototype.sort` is stable, modelled
by a stable sort (`List.insertionSort`; on a total preorder every stable
sort computes the same list). -/
def sortProducts (k : SortKey) (ps : List Product) : List Product :=
  ps.insertionSort (sortRel k)

/-- The full `filteredProducts` memo: filter by search query and
category, then sort by the sort key. -/
def filteredProducts (catalog : List Product) (q : String) (c : Option String)
    (k : SortKey) : List Product :=
  sortProducts k (filterStage catalog q c)

/-- The page size `PRODUCTS_PER_LOAD` from `CatalogPage.tsx`. -/
def PRODUCTS_PER_LOAD : Nat := 12

/-- The component state that the pipeline reads and writes. -/
structure ViewState where
  searchQuery : String
  categoryId : Option String
  sortKey : SortKey
  viewMode : ViewMode
  displayedProducts : List Product
  hasMore : Bool
  loading : Bool
deriving DecidableEq, Repr

/-- The filtered list derived from a state's current filter inputs. -/
def filteredOf (catalog : List Product) (s : ViewState) : List Product :=
  filteredProducts catalog s.searchQuery s.categoryId s.sortKey

/-- The reset effect (`useEffect` on `[filteredProducts]`): re-slice the
first page and recompute `hasMore` as `filteredProducts.length > PRODUCTS_PER_LOAD`. -/
def resetDisplayed (catalog : List Product) (s : ViewState) : ViewState :=
  { s with
    displayedProducts := (filteredOf catalog s).take PRODUCTS_PER_LOAD
    hasMore := decide (PRODUCTS_PER_LOAD < (filteredOf catalog s).length) }

/-- A change of the filter inputs followed by the reset effect it triggers. -/
def setFilters (catalog : List Product) (q : String) (c : Option String)
    (k : SortKey) (s : ViewState) : ViewState :=
  resetDisplayed catalog
    { s with searchQuery := q, categoryId := c, sortKey := k }

/-- The callback `loadMoreProducts`, collapsed to its synchronous net effect (the call
together with the completion of its timeout): bail out when loading or
when `hasMore` is false; otherwise slice the next page after the current
displayed length, set `hasMore := false` when the slice is empty, and
append it otherwise; `loading` ends up false either way. -/
def loadMoreProducts (catalog : List Product) (s : ViewState) : ViewState :=
  if s.loading || !s.hasMore then s
  else
    let currentLength := s.displayedProducts.length
    let nextProducts :=
      ((filteredOf catalog s).drop currentLength).take PRODUCTS_PER_LOAD
    if nextProducts.isEmpty then
      { s with hasMore := false, loading := false }
    else
      { s with displayedProducts := s.displayedProducts ++ nextProducts,
               loading := false }

/-- States reachable within the synchronous pipeline: mount (initial
state plus the first run of the reset effect), filter-input changes
(which re-run the reset effect), and completed `loadMoreProducts` calls. -/
inductive Reachable (catalog : List Product) : ViewState → Prop
  | init (q : String) (c : Option String) (k : SortKey) (vm : ViewMode) :
      Reachable catalog
        (resetDisplayed catalog ⟨q, c, k, vm, [], true, false⟩)
  | change {s : ViewState} (q : String) (c : Option String) (k : SortKey) :
      Reachable catalog s → Reachable catalog (setFilters catalog q c k s)
  | load {s : ViewState} :
      Reachable catalog s → Reachable catalog (loadMoreProducts catalog s)

/-- The combined predicate the two filter passes implement, including the
JavaScript truthiness treatment of the empty query and the empty
category id. -/
def passesFilters (q : String) (c : Option String) (p : Product) : Bool :=
  (decide (q = "") || matchesQuery q p) &&
  (match c with
   | none => true
   | some cid => decide (cid = "") || decide (p.category = cid))

/-- The predicate conjunction in the claim's own words: clause (b) reads
"if a category id is set, products whose category equals it", i.e. any
non-null category id — including the empty string — must match the
product's category. -/
def specMatch (q : String) (c : Option String) (p : Product) : Bool :=
  (decide (q = "") || matchesQuery q p) &&
  (match c with
   | none => true
   | some cid => decide (p.category = cid))

/-- The inductive invariant of the synchronous pipeline: the displayed
list is the initial slice of the filtered list of the current inputs and
never longer than it; a false `hasMore` means the whole filtered list is
displayed, a strict prefix forces `hasMore = true`; and no load is in
flight. -/
def GoodState (catalog : List Product) (s : ViewState) : Prop :=
  s.displayedProducts = (filteredOf catalog s).take s.displayedProducts.length ∧
  s.displayedProducts.length ≤ (filteredOf catalog s).length ∧
  (s.hasMore = false →
    s.displayedProducts.length = (filteredOf catalog s).length) ∧
  (s.displayedProducts.length < (filteredOf catalog s).length →
    s.hasMore = true) ∧
  s.loading = false

/-- A concrete product used by several witnesses. -/
def pMouse : Product :=
  ⟨"1", "Wireless Mouse", "A compact mouse", "accessories", 14500, 4, 120⟩

/-- The mount-time state of the component: empty displayed list,
`hasMore = true`, not loading. -/
def initViewState : ViewState :=
  ⟨"", none, SortKey.name, ViewMode.grid, [], true, false⟩

/-- Three concrete products, deliberately out of alphabetical order. -/
def pPhone : Product := ⟨"p1", "Phone", "A phone", "electronics", 300, 5, 10⟩

def pLaptop : Product := ⟨"p2", "Laptop", "A laptop", "electronics", 900, 4, 20⟩

def pMouseThree : Product := ⟨"p3", "Mouse", "A mouse", "accessories", 20, 3, 5⟩

def catalogThree : List Product := [pPhone, pLaptop, pMouseThree]

/-- Thirteen products with distinct alphabetical names — one more than a
page, so the second page has exactly one item. -/
def catalogThirteen : List Product :=
  [⟨"q01", "Alpha", "item", "gear", 1, 1, 1⟩,
   ⟨"q02", "Bravo", "item", "gear", 2, 1, 1⟩,
   ⟨"q03", "Charlie", "item", "gear", 3, 1, 1⟩,
   ⟨"q04", "Delta", "item", "gear", 4, 1, 1⟩,
   ⟨"q05", "Echo", "item", "gear", 5, 1, 1⟩,
   ⟨"q06", "Foxtrot", "item", "gear", 6, 1, 1⟩,
   ⟨"q07", "Golf", "item", "gear", 7, 1, 1⟩,
   ⟨"q08", "Hotel", "item", "gear", 8, 1, 1⟩,
   ⟨"q09", "India", "item", "gear", 9, 1, 1⟩,
   ⟨"q10", "Juliet", "item", "gear", 10, 1, 1⟩,
   ⟨"q11", "Kilo", "item", "gear", 11, 1, 1⟩,
   ⟨"q12", "Lima", "item", "gear", 12, 1, 1⟩,
   ⟨"q13", "Mike", "item", "gear", 13, 1, 1⟩]

/-- Component state with the asynchronous part of `loadMoreProducts`
made explicit: `pending` carries the data captured by the `setTimeout`
closure — the filtered list and the displayed length at call time. -/
structure AsyncState where
  searchQuery : String
  categoryId : Option String
  sortKey : SortKey
  displayedProducts : List Product
  hasMore : Bool
  loading : Bool
  pending : Option (List Product × Nat)
deriving DecidableEq, Repr

/-- The filtered list derived from an async state's current inputs. -/
def filteredOfA (catalog : List Product) (s : AsyncState) : List Product :=
  filteredProducts catalog s.searchQuery s.categoryId s.sortKey

/-- The synchronous part of an enabled `loadMoreProducts` call:
`setLoading(true)` and scheduling of the timeout, whose closure captures
the current filtered list and the current displayed length. -/
def startLoad (catalog : List Product) (s : AsyncState) : AsyncState :=
  { s with loading := true,
           pending := some (filteredOfA catalog s, s.displayedProducts.length) }

/-- The timeout body: slice the captured filtered list `f` from the
captured length `n`; an empty slice clears `hasMore`, otherwise the
slice is appended to the CURRENT displayed list (the functional
`setDisplayedProducts(prev => [...prev, ...nextProducts])` update);
`setLoading(false)` either way. -/
def completeLoad (s : AsyncState) (f : List Product) (n : Nat) : AsyncState :=
  let nextProducts := (f.drop n).take PRODUCTS_PER_LOAD
  if nextProducts.isEmpty then
    { s with hasMore := false, loading := false, pending := none }
  else
    { s with displayedProducts := s.displayedProducts ++ nextProducts,
             loading := false, pending := none }

/-- A filter-input change and the reset effect it triggers.  It does not
touch `loading` or `pending`: the component has no cancellation, so a
pending load still completes afterwards. -/
def changeFilters (catalog : List Product) (q : String) (c : Option String)
    (k : SortKey) (s : AsyncState) : AsyncState :=
  let s2 : AsyncState := { s with searchQuery := q, categoryId := c, sortKey := k }
  { s2 with
    displayedProducts := (filteredOfA catalog s2).take PRODUCTS_PER_LOAD,
    hasMore := decide (PRODUCTS_PER_LOAD < (filteredOfA catalog s2).length) }

/-- Event-interleaved reachability of the pipeline: mount, enabled
`loadMoreProducts` calls, filter-input changes, and timeout completions,
in any order the UI event loop can produce. -/
inductive AsyncReachable (catalog : List Product) : AsyncState → Prop
  | init (q : String) (c : Option String) (k : SortKey) :
      AsyncReachable catalog
        (changeFilters catalog q c k ⟨q, c, k, [], true, false, none⟩)
  | call {s : AsyncState} : AsyncReachable catalog s → s.loading = false →
      s.hasMore = true → s.pending = none →
      AsyncReachable catalog (startLoad catalog s)
  | changed {s : AsyncState} (q : String) (c : Option String) (k : SortKey) :
      AsyncReachable catalog s →
      AsyncReachable catalog (changeFilters catalog q c k s)
  | complete {s : AsyncState} {f : List Product} {n : Nat} :
      AsyncReachable catalog s → s.pending = some (f, n) →
      AsyncReachable catalog (completeLoad s f n)

/-- The filtered list of `catalogThirteen` under the initial inputs. -/
def fThirteen : List Product :=
  filteredProducts catalogThirteen "" none SortKey.name

/-- The stale-load trace: mount with 13 matching products (12 displayed),
call `loadMoreProducts`, change the query to `"zzz"` (matching nothing,
so the reset shows 0 products) while the load is in flight, then let the
pending timeout fire. -/
def staleState : AsyncState :=
  completeLoad
    (changeFilters catalogThirteen "zzz" none SortKey.name
      (startLoad catalogThirteen
        (changeFilters catalogThirteen "" none SortKey.name
          ⟨"", none, SortKey.name, [], true, false, none⟩)))
    fThirteen 12


theorem lexLeChars_total : ∀ xs ys : List Char,
    (lexLeChars xs ys || lexLeChars ys xs) = true
  | [], _ => by simp [lexLeChars]
  | _ :: _, [] => by simp [lexLeChars]
  | x :: xs, y :: ys => by
    simp only [lexLeChars, Bool.or_eq_true, Bool.and_eq_true, decide_eq_true_eq]
    rcases lt_trichotomy x y with h | h | h
    · exact Or.inl (Or.inl h)
    · subst h
      rcases Bool.or_eq_true _ _ |>.mp (lexLeChars_total xs ys) with h2 | h2
      · exact Or.inl (Or.inr ⟨rfl, h2⟩)
      · exact Or.inr (Or.inr ⟨rfl, h2⟩)
    · exact Or.inr (Or.inl h)

theorem lexLeChars_trans : ∀ xs ys zs : List Char,
    lexLeChars xs ys = true → lexLeChars ys zs = true → lexLeChars xs zs = true
  | [], _, _ => by simp [lexLeChars]
  | _ :: _, [], _ => by simp [lexLeChars]
  | _ :: _, _ :: _, [] => by simp [lexLeChars]
  | x :: xs, y :: ys, z :: zs => by
    simp only [lexLeChars, Bool.or_eq_true, Bool.and_eq_true, decide_eq_true_eq]
    rintro (h1 | ⟨rfl, h1⟩) (h2 | ⟨rfl, h2⟩)
    · exact Or.inl (lt_trans h1 h2)
    · exact Or.inl h1
    · exact Or.inl h2
    · exact Or.inr ⟨rfl, lexLeChars_trans xs ys zs h1 h2⟩

theorem sortLe_total (k : SortKey) (a b : Product) :
    (sortLe k a b || sortLe k b a) = true := by
  cases k <;> simp only [sortLe, nameLe]
  · exact lexLeChars_total _ _
  · simp [le_total]
  · simp [le_total]
  · simp [le_total]

theorem sortLe_trans (k : SortKey) (a b c : Product) :
    sortLe k a b = true → sortLe k b c = true → sortLe k a c = true := by
  cases k <;> simp only [sortLe, nameLe, decide_eq_true_eq]
  · exact lexLeChars_trans _ _ _
  · exact le_trans
  · exact fun h1 h2 => le_trans h2 h1
  · exact fun h1 h2 => le_trans h2 h1

theorem filterStage_eq_filter (catalog : List Product) (q : String)
    (c : Option String) :
    filterStage catalog q c = catalog.filter (passesFilters q c) := by
  unfold filterStage passesFilters
  by_cases hq : q = "" <;>
    cases c with
    | none => simp [hq]
    | some cid =>
      by_cases hc : cid = "" <;>
        simp [hq, hc, List.filter_filter, Bool.and_comm]

theorem sortProducts_stable_filter (k : SortKey) (p : Product → Bool)
    (hp : ∀ a b, p a = true → p b = true → sortRel k a b)
    (l : List Product) :
    (sortProducts k l).filter p = l.filter p := by
  have h2 : (l.filter p).Pairwise (sortRel k) :=
    List.pairwise_of_forall_mem_list (fun a ha b hb =>
      hp a b (List.of_mem_filter ha) (List.of_mem_filter hb))
  have h3 : List.Sublist (l.filter p) (sortProducts k l) :=
    List.sublist_insertionSort h2 (List.filter_sublist l)
  have h4 : List.Sublist ((l.filter p).filter p) ((sortProducts k l).filter p) :=
    h3.filter p
  have h5 : (l.filter p).filter p = l.filter p := by
    simp [List.filter_filter]
  rw [h5] at h4
  have h6 : List.Perm ((sortProducts k l).filter p) (l.filter p) :=
    (List.perm_insertionSort (sortRel k) l).filter p
  exact (h4.eq_of_length h6.length_eq.symm).symm

theorem sortProducts_pairwise (k : SortKey) (ps : List Product) :
    (sortProducts k ps).Pairwise (sortRel k) :=
  @List.sorted_insertionSort Product (sortRel k) _
    ⟨fun a b => ((Bool.or_eq_true _ _).mp (sortLe_total k a b)).imp id id⟩
    ⟨fun a b c => sortLe_trans k a b c⟩ ps

theorem sortProducts_perm (k : SortKey) (ps : List Product) :
    List.Perm (sortProducts k ps) ps :=
  List.perm_insertionSort (sortRel k) ps

/-- C1 fails as stated: with the empty-string category id `some ""` the
component skips the category pass (JavaScript truthiness), so the
product below survives the filter although the claim's predicate —
"products whose category equals it" — rejects it. -/
theorem C1_counterexample :
    pMouse ∈ filteredProducts [pMouse] "" (some "") SortKey.name ∧
    specMatch "" (some "") pMouse = false ∧
    filterStage [pMouse] "" (some "") ≠
      List.filter (specMatch "" (some "")) [pMouse] := by
  refine ⟨by decide, by decide, ?_⟩
  decide

/-- C1 (amended: clause (b) applies only when the category id is set to a
non-empty string; an empty-string id filters nothing): the pre-sort
filter result equals the catalog restricted to the predicate
conjunction, and every product of the full filter-sort output belongs to
the catalog and satisfies the conjunction. -/
theorem C1_filter_conjunction (catalog : List Product) (q : String)
    (c : Option String) (k : SortKey) :
    filterStage catalog q c = catalog.filter (passesFilters q c) ∧
    ∀ p, p ∈ filteredProducts catalog q c k →
      p ∈ catalog ∧ passesFilters q c p = true := by
  refine ⟨filterStage_eq_filter catalog q c, fun p hp => ?_⟩
  have hmem : p ∈ filterStage catalog q c := by
    simp only [filteredProducts, sortProducts, List.mem_insertionSort] at hp
    exact hp
  rw [filterStage_eq_filter] at hmem
  exact ⟨List.mem_of_mem_filter hmem, List.of_mem_filter hmem⟩

theorem C1_filter_conjunction_witness :
    pMouse ∈ [pMouse] ∧ passesFilters "" none pMouse = true :=
  (C1_filter_conjunction [pMouse] "" none SortKey.name).2 pMouse (by decide)

/-- C2: the sort pass is stable and totally orders its output under each
sort key: adjacent names are lexicographically non-decreasing under
`name`, adjacent prices non-decreasing under `price-low`, non-increasing
under `price-high`, adjacent ratings non-increasing under `rating`; and
for every sort key the subsequence of elements tied with any fixed
product is exactly the corresponding subsequence of the input, so
equal-key elements keep their relative order. -/
theorem C2_sort_stable_sorted (ps : List Product) :
    List.Chain' (fun a b => nameLe a.name b.name = true)
      (sortProducts SortKey.name ps) ∧
    List.Chain' (fun a b => a.price ≤ b.price)
      (sortProducts SortKey.priceLow ps) ∧
    List.Chain' (fun a b => b.price ≤ a.price)
      (sortProducts SortKey.priceHigh ps) ∧
    List.Chain' (fun a b => b.rating ≤ a.rating)
      (sortProducts SortKey.rating ps) ∧
    ∀ (k : SortKey) (x : Product),
      (sortProducts k ps).filter (fun p => sortLe k x p && sortLe k p x) =
        ps.filter (fun p => sortLe k x p && sortLe k p x) := by
  refine ⟨?_, ?_, ?_, ?_, ?_⟩
  · exact ((sortProducts_pairwise SortKey.name ps).imp (fun h => h)).chain'
  · exact ((sortProducts_pairwise SortKey.priceLow ps).imp
      (fun h => of_decide_eq_true h)).chain'
  · exact ((sortProducts_pairwise SortKey.priceHigh ps).imp
      (fun h => of_decide_eq_true h)).chain'
  · exact ((sortProducts_pairwise SortKey.rating ps).imp
      (fun h => of_decide_eq_true h)).chain'
  · intro k x
    refine sortProducts_stable_filter k _ (fun a b ha hb => ?_) ps
    simp only [Bool.and_eq_true] at ha hb
    exact sortLe_trans k a x b ha.2 hb.1

/-- C10: the filter-sort output is a permutation of the catalog
restricted to the combined filter predicate; with an empty query and a
null category it is a permutation of the whole catalog. -/
theorem C10_sort_permutation (catalog : List Product) (q : String)
    (c : Option String) (k : SortKey) :
    List.Perm (filteredProducts catalog q c k)
      (catalog.filter (passesFilters q c)) ∧
    List.Perm (filteredProducts catalog "" none k) catalog := by
  constructor
  · rw [← filterStage_eq_filter catalog q c]
    exact sortProducts_perm k (filterStage catalog q c)
  · have h := sortProducts_perm k (filterStage catalog "" none)
    have he : filterStage catalog "" none = catalog := by simp [filterStage]
    rw [he] at h
    exact h

/-- C3: a filter-input change (and likewise initialization) re-slices
`displayedProducts` to the first `PRODUCTS_PER_LOAD` items of the
filtered list — so its length is `min PRODUCTS_PER_LOAD length` — and
recomputes `hasMore` as `length > PRODUCTS_PER_LOAD`. -/
theorem C3_reset_on_filter_change (catalog : List Product) (s : ViewState)
    (q : String) (c : Option String) (k : SortKey) :
    (setFilters catalog q c k s).displayedProducts =
      (filteredProducts catalog q c k).take PRODUCTS_PER_LOAD ∧
    (setFilters catalog q c k s).displayedProducts.length =
      min PRODUCTS_PER_LOAD (filteredProducts catalog q c k).length ∧
    (setFilters catalog q c k s).hasMore =
      decide (PRODUCTS_PER_LOAD < (filteredProducts catalog q c k).length) ∧
    (resetDisplayed catalog s).displayedProducts =
      (filteredOf catalog s).take PRODUCTS_PER_LOAD ∧
    (resetDisplayed catalog s).displayedProducts.length =
      min PRODUCTS_PER_LOAD (filteredOf catalog s).length ∧
    PRODUCTS_PER_LOAD = 12 := by
  refine ⟨rfl, ?_, rfl, rfl, ?_, rfl⟩ <;>
    simp [setFilters, resetDisplayed, filteredOf, List.length_take]

theorem loadMore_eq (catalog : List Product) (s : ViewState)
    (h1 : s.loading = false) (h2 : s.hasMore = true) :
    loadMoreProducts catalog s =
      (if (((filteredOf catalog s).drop s.displayedProducts.length).take
            PRODUCTS_PER_LOAD).isEmpty then
        { s with hasMore := false, loading := false }
      else
        { s with
          displayedProducts :=
            s.displayedProducts ++
              (((filteredOf catalog s).drop s.displayedProducts.length).take
                PRODUCTS_PER_LOAD),
          loading := false }) := by
  unfold loadMoreProducts
  rw [h1, h2]
  simp

theorem loadMore_guard_noop (catalog : List Product) (s : ViewState)
    (h : s.loading = true ∨ s.hasMore = false) :
    loadMoreProducts catalog s = s := by
  unfold loadMoreProducts
  rcases h with h | h <;> rw [h] <;> simp

/-- C4: an enabled `loadMoreProducts` call (not loading, `hasMore` true)
appends the next `PRODUCTS_PER_LOAD` items of the filtered list after
the current displayed prefix (fewer if fewer remain) and ends with
`loading = false`; if that slice is empty it instead sets
`hasMore := false` and leaves `displayedProducts` unchanged, and any
state with `hasMore = false` is a fixed point of `loadMoreProducts`, so
`hasMore` stays false until a filter-input reset. -/
theorem C4_loadMore_appends (catalog : List Product) (s : ViewState)
    (h1 : s.loading = false) (h2 : s.hasMore = true) :
    ((((filteredOf catalog s).drop s.displayedProducts.length).take
        PRODUCTS_PER_LOAD) ≠ [] →
      (loadMoreProducts catalog s).displayedProducts =
        s.displayedProducts ++
          ((filteredOf catalog s).drop s.displayedProducts.length).take
            PRODUCTS_PER_LOAD ∧
      (loadMoreProducts catalog s).loading = false ∧
      (loadMoreProducts catalog s).hasMore = true) ∧
    ((((filteredOf catalog s).drop s.displayedProducts.length).take
        PRODUCTS_PER_LOAD) = [] →
      (loadMoreProducts catalog s).hasMore = false ∧
      (loadMoreProducts catalog s).displayedProducts = s.displayedProducts ∧
      (loadMoreProducts catalog s).loading = false) ∧
    (∀ t : ViewState, t.hasMore = false → loadMoreProducts catalog t = t) := by
  refine ⟨fun hne => ?_, fun he => ?_, fun t ht => ?_⟩
  · rw [loadMore_eq catalog s h1 h2,
      if_neg (by simpa [List.isEmpty_iff] using hne)]
    exact ⟨rfl, rfl, h2⟩
  · rw [loadMore_eq catalog s h1 h2, if_pos (by simp [he])]
    exact ⟨rfl, rfl, rfl⟩
  · unfold loadMoreProducts
    rw [ht]
    simp

theorem C4_loadMore_appends_witness :
    (loadMoreProducts [pMouse]
      ⟨"", none, SortKey.name, ViewMode.grid, [], true, false⟩).displayedProducts
      = [pMouse] :=
  (((C4_loadMore_appends [pMouse]
      ⟨"", none, SortKey.name, ViewMode.grid, [], true, false⟩ rfl rfl).1
    (by decide)).1).trans (by decide)

/-- C5: a `loadMoreProducts` call in a state that is already loading, or
whose `hasMore` flag is false, returns the state unchanged — every field
of the `ViewState` is identical — so at most one load is in flight. -/
theorem C5_loadMore_noop (catalog : List Product) (s : ViewState)
    (h : s.loading = true ∨ s.hasMore = false) :
    loadMoreProducts catalog s = s :=
  loadMore_guard_noop catalog s h

theorem C5_loadMore_noop_witness :
    loadMoreProducts [pMouse]
        ⟨"", none, SortKey.name, ViewMode.grid, [], true, true⟩ =
      ⟨"", none, SortKey.name, ViewMode.grid, [], true, true⟩ :=
  C5_loadMore_noop [pMouse]
    ⟨"", none, SortKey.name, ViewMode.grid, [], true, true⟩ (Or.inl rfl)

theorem take_take_self (F : List Product) (n : Nat) :
    F.take ((F.take n).length) = F.take n := by
  rw [List.length_take]
  rcases Nat.le_total F.length n with h | h
  · rw [Nat.min_eq_right h, List.take_length, List.take_of_length_le h]
  · rw [Nat.min_eq_left h]

theorem goodState_reset (catalog : List Product) (s : ViewState)
    (hl : s.loading = false) :
    GoodState catalog (resetDisplayed catalog s) := by
  refine ⟨?_, ?_, ?_, ?_, hl⟩
  · show (filteredOf catalog s).take PRODUCTS_PER_LOAD =
      (filteredOf catalog s).take
        ((filteredOf catalog s).take PRODUCTS_PER_LOAD).length
    exact (take_take_self _ _).symm
  · show ((filteredOf catalog s).take PRODUCTS_PER_LOAD).length ≤
      (filteredOf catalog s).length
    rw [List.length_take]
    omega
  · intro hm
    have hm2 : decide (PRODUCTS_PER_LOAD < (filteredOf catalog s).length) = false :=
      hm
    have hnot : ¬ (PRODUCTS_PER_LOAD < (filteredOf catalog s).length) := by
      simpa using hm2
    show ((filteredOf catalog s).take PRODUCTS_PER_LOAD).length =
      (filteredOf catalog s).length
    rw [List.length_take]
    omega
  · intro hlt
    have hlt2 : ((filteredOf catalog s).take PRODUCTS_PER_LOAD).length <
        (filteredOf catalog s).length := hlt
    rw [List.length_take] at hlt2
    show decide (PRODUCTS_PER_LOAD < (filteredOf catalog s).length) = true
    simp only [decide_eq_true_eq]
    omega

theorem goodState_load (catalog : List Product) (s : ViewState)
    (hg : GoodState catalog s) :
    GoodState catalog (loadMoreProducts catalog s) := by
  obtain ⟨h1, h2, h3, h4, h5⟩ := hg
  by_cases hm : s.hasMore = true
  · rw [loadMore_eq catalog s h5 hm]
    by_cases he : (((filteredOf catalog s).drop s.displayedProducts.length).take
        PRODUCTS_PER_LOAD).isEmpty = true
    · rw [if_pos he]
      have hlen : s.displayedProducts.length = (filteredOf catalog s).length := by
        rw [List.isEmpty_iff, List.take_eq_nil_iff, List.drop_eq_nil_iff] at he
        rcases he with he | he
        · simp [PRODUCTS_PER_LOAD] at he
        · omega
      refine ⟨?_, ?_, fun _ => ?_, fun hlt => ?_, rfl⟩
      · exact h1
      · exact h2
      · exact hlen
      · have hlt2 : s.displayedProducts.length < (filteredOf catalog s).length :=
          hlt
        exact absurd hlt2 (by omega)
    · rw [if_neg he]
      have hmin : s.displayedProducts.length +
          min PRODUCTS_PER_LOAD
            ((filteredOf catalog s).length - s.displayedProducts.length) =
          min (s.displayedProducts.length + PRODUCTS_PER_LOAD)
            (filteredOf catalog s).length := by
        omega
      have hts : (filteredOf catalog s).take
            (min (s.displayedProducts.length + PRODUCTS_PER_LOAD)
              (filteredOf catalog s).length) =
          (filteredOf catalog s).take
            (s.displayedProducts.length + PRODUCTS_PER_LOAD) := by
        rw [← List.length_take]
        exact take_take_self _ _
      refine ⟨?_, ?_, ?_, fun _ => hm, rfl⟩
      · show s.displayedProducts ++
            (((filteredOf catalog s).drop s.displayedProducts.length).take
              PRODUCTS_PER_LOAD) =
          (filteredOf catalog s).take
            (s.displayedProducts ++
              (((filteredOf catalog s).drop s.displayedProducts.length).take
                PRODUCTS_PER_LOAD)).length
        rw [List.length_append, List.length_take, List.length_drop, hmin, hts]
        conv_rhs => rw [List.take_add]
        exact congrArg (· ++ _) h1
      · show (s.displayedProducts ++
            (((filteredOf catalog s).drop s.displayedProducts.length).take
              PRODUCTS_PER_LOAD)).length ≤ (filteredOf catalog s).length
        rw [List.length_append, List.length_take, List.length_drop]
        omega
      · intro hfalse
        have : s.hasMore = false := hfalse
        rw [hm] at this
        exact absurd this (by simp)
  · have hm2 : s.hasMore = false := by
      cases hx : s.hasMore
      · rfl
      · exact absurd hx hm
    rw [loadMore_guard_noop catalog s (Or.inr hm2)]
    exact ⟨h1, h2, h3, h4, h5⟩

theorem reachable_good (catalog : List Product) (s : ViewState)
    (h : Reachable catalog s) : GoodState catalog s := by
  induction h with
  | init q c k vm => exact goodState_reset catalog _ rfl
  | change q c k h ih => exact goodState_reset catalog _ ih.2.2.2.2
  | load h ih => exact goodState_load catalog _ ih

theorem loadMore_extends (catalog : List Product) (s : ViewState) :
    ∃ t, (loadMoreProducts catalog s).displayedProducts =
      s.displayedProducts ++ t := by
  by_cases h5 : s.loading = true
  · rw [loadMore_guard_noop catalog s (Or.inl h5)]
    exact ⟨[], (List.append_nil _).symm⟩
  by_cases hm : s.hasMore = true
  · have h5f : s.loading = false := by
      cases hx : s.loading
      · rfl
      · exact absurd hx h5
    rw [loadMore_eq catalog s h5f hm]
    by_cases he : (((filteredOf catalog s).drop s.displayedProducts.length).take
        PRODUCTS_PER_LOAD).isEmpty = true
    · rw [if_pos he]
      exact ⟨[], (List.append_nil _).symm⟩
    · rw [if_neg he]
      exact ⟨_, rfl⟩
  · have hmf : s.hasMore = false := by
      cases hx : s.hasMore
      · rfl
      · exact absurd hx hm
    rw [loadMore_guard_noop catalog s (Or.inr hmf)]
    exact ⟨[], (List.append_nil _).symm⟩

/-- C6 fails as stated: with 13 matching products, after the reset
(12 displayed, `hasMore = true`) one `loadMoreProducts` appends the last
item, so all 13 products are displayed, yet `hasMore` is still true —
the code only clears it on a later call that finds an empty slice. -/
theorem C6_counterexample :
    Reachable catalogThirteen
      (loadMoreProducts catalogThirteen
        (resetDisplayed catalogThirteen initViewState)) ∧
    (loadMoreProducts catalogThirteen
      (resetDisplayed catalogThirteen initViewState)).hasMore = true ∧
    ¬ ((loadMoreProducts catalogThirteen
          (resetDisplayed catalogThirteen initViewState)).displayedProducts.length <
        (filteredOf catalogThirteen
          (loadMoreProducts catalogThirteen
            (resetDisplayed catalogThirteen initViewState))).length) :=
  ⟨Reachable.load (Reachable.init "" none SortKey.name ViewMode.grid),
    by decide, by decide⟩

/-- C6 (amended: only one direction of the equivalence holds — a strict
displayed prefix forces `hasMore = true`, and `hasMore = false` means
the full filtered list is displayed; `hasMore` may remain true with the
full list displayed until a further `loadMoreProducts` call observes an
empty slice): in every reachable state of the synchronous pipeline. -/
theorem C6_hasMore_invariant (catalog : List Product) (s : ViewState)
    (h : Reachable catalog s) :
    (s.displayedProducts.length < (filteredOf catalog s).length →
      s.hasMore = true) ∧
    (s.hasMore = false →
      s.displayedProducts.length = (filteredOf catalog s).length) :=
  ⟨(reachable_good catalog s h).2.2.2.1, (reachable_good catalog s h).2.2.1⟩

theorem C6_hasMore_invariant_witness :
    ((resetDisplayed catalogThree initViewState).displayedProducts.length <
        (filteredOf catalogThree
          (resetDisplayed catalogThree initViewState)).length →
      (resetDisplayed catalogThree initViewState).hasMore = true) ∧
    ((resetDisplayed catalogThree initViewState).hasMore = false →
      (resetDisplayed catalogThree initViewState).displayedProducts.length =
        (filteredOf catalogThree
          (resetDisplayed catalogThree initViewState)).length) :=
  C6_hasMore_invariant catalogThree _
    (Reachable.init "" none SortKey.name ViewMode.grid)

/-- C8: in every reachable state of the synchronous pipeline the
displayed list is the initial slice of the filtered list, and a
`loadMoreProducts` step only appends a (possibly empty) suffix to it:
its length never decreases and no element is reordered, replaced or
removed except by a filter-input reset. -/
theorem C8_monotone_index (catalog : List Product) (s : ViewState)
    (h : Reachable catalog s) :
    s.displayedProducts =
      (filteredOf catalog s).take s.displayedProducts.length ∧
    s.displayedProducts.length ≤
      (loadMoreProducts catalog s).displayedProducts.length ∧
    ∃ t, (loadMoreProducts catalog s).displayedProducts =
      s.displayedProducts ++ t := by
  obtain ⟨t, ht⟩ := loadMore_extends catalog s
  refine ⟨(reachable_good catalog s h).1, ?_, ⟨t, ht⟩⟩
  rw [ht]
  simp

theorem C8_monotone_index_witness :
    (resetDisplayed catalogThirteen initViewState).displayedProducts =
      (filteredOf catalogThirteen
        (resetDisplayed catalogThirteen initViewState)).take
        (resetDisplayed catalogThirteen initViewState).displayedProducts.length ∧
    (resetDisplayed catalogThirteen initViewState).displayedProducts.length ≤
      (loadMoreProducts catalogThirteen
        (resetDisplayed catalogThirteen initViewState)).displayedProducts.length ∧
    ∃ t, (loadMoreProducts catalogThirteen
        (resetDisplayed catalogThirteen initViewState)).displayedProducts =
      (resetDisplayed catalogThirteen initViewState).displayedProducts ++ t :=
  C8_monotone_index catalogThirteen _
    (Reachable.init "" none SortKey.name ViewMode.grid)

/-- C9: on a catalog of exactly 3 products with empty query, null
category and sort key `name`, initialization displays the 3 products in
alphabetical name order, the displayed length is
`min PRODUCTS_PER_LOAD 3 = 3`, and `hasMore` is false. -/
theorem C9_three_products :
    (resetDisplayed catalogThree initViewState).displayedProducts =
      [pLaptop, pMouseThree, pPhone] ∧
    (resetDisplayed catalogThree initViewState).displayedProducts.length =
      min PRODUCTS_PER_LOAD catalogThree.length ∧
    (resetDisplayed catalogThree initViewState).displayedProducts.length = 3 ∧
    (resetDisplayed catalogThree initViewState).hasMore = false := by
  decide

/-- C7 fails on the code: after the stale-load trace the component
displays 1 product while the filtered list of the current inputs is
empty, so `displayedProducts.length <= filteredProducts.length` is
violated — the timeout appends a slice of the pre-change filtered list
on top of the post-change reset (the staleness defect the spec's design
notes call out). -/
theorem C7_code_bug :
    AsyncReachable catalogThirteen staleState ∧
    (filteredOfA catalogThirteen staleState).length = 0 ∧
    staleState.displayedProducts.length = 1 ∧
    ¬ (staleState.displayedProducts.length ≤
        (filteredOfA catalogThirteen staleState).length) :=
  ⟨AsyncReachable.complete
      (AsyncReachable.changed "zzz" none SortKey.name
        (AsyncReachable.call (AsyncReachable.init "" none SortKey.name)
          (by decide) (by decide) (by decide)))
      (by decide),
    by decide, by decide, by decide⟩
